import Mathlib

set_option autoImplicit false

namespace FateFlow

/-!
Shallow embedding of the FATE-Flow model/component synchronisation slice:
`fate_flow/model/sync_model.py` and
`fate_flow/pipelined_model/pipelined_component.py`.

Python dicts are embedded as association lists (`List (key × value)`) with
insertion-order semantics, matching CPython dict behaviour: `dget` is `d[k]`
(as an `Option`), `dinsert` is `d[k] = v` (update in place if the key exists,
append otherwise), `dpop` is `d.pop(k)`, `ddel` is `del d[k]`, `dupdate` is
`d.update(e)`.
-/

/-- `d[k]` as an `Option`: the value stored at the first occurrence of `k`. -/
def dget {α β : Type} [DecidableEq α] : List (α × β) → α → Option β
  | [], _ => none
  | (k, v) :: rest, k2 => if k = k2 then some v else dget rest k2

/-- `d[k] = v`: update the existing binding in place, else append at the end
(CPython dict insertion-order semantics). -/
def dinsert {α β : Type} [DecidableEq α] : List (α × β) → α → β → List (α × β)
  | [], k, v => [(k, v)]
  | (k2, v2) :: rest, k, v =>
      if k2 = k then (k2, v) :: rest else (k2, v2) :: dinsert rest k v

/-- `d.pop(k)` with no default: the removed value and the remaining dict, or
`none` (a `KeyError` in Python) when the key is absent. -/
def dpop {α β : Type} [DecidableEq α] : List (α × β) → α → Option (β × List (α × β))
  | [], _ => none
  | (k2, v2) :: rest, k =>
      if k2 = k then some (v2, rest)
      else match dpop rest k with
        | none => none
        | some (v, m2) => some (v, (k2, v2) :: m2)

/-- `del d[k]` (no-op when absent; callers only use it on present keys). -/
def ddel {α β : Type} [DecidableEq α] (m : List (α × β)) (k : α) : List (α × β) :=
  m.filter (fun kv => kv.1 ≠ k)

/-- `d.update(e)`: bind every key of `e` into `d`, later entries winning. -/
def dupdate {α β : Type} [DecidableEq α] (m e : List (α × β)) : List (α × β) :=
  e.foldl (fun acc kv => dinsert acc kv.1 kv.2) m

/-- The keys of a dict, in order. -/
def dkeys {α β : Type} (m : List (α × β)) : List α :=
  m.map Prod.fst

/-! ## sync_model.py -/

/-- The error outcomes surfaced by the embedded operations (Python exception
kinds, named after the spec's taxonomy where it has a name for them). -/
inductive Err where
  /-- `peewee.DoesNotExist` from `MLModel.get` — the spec's NotFound. -/
  | doesNotExist : Err
  /-- `KeyError` from a dict access (`pop`/`[]` on a missing key). -/
  | keyError (key : String) : Err
  /-- `KeyError("Model storage ... is not supported.")` — UnsupportedBackend. -/
  | unsupportedBackend (name : String) : Err
  /-- `AttributeError`: an instance attribute read before it was assigned. -/
  | attributeError (name : String) : Err
  /-- `ValueError` in `get_archive_hash` — the spec's InconsistentMetadata. -/
  | inconsistentMetadata : Err
  /-- `ValueError('Model archive hash mismatch ...')` — IntegrityMismatch. -/
  | integrityMismatch (expected actual : String) : Err
  /-- `ValueError('The define_meta data already exists in database.')`. -/
  | alreadyExists : Err
  /-- `ValueError` on an empty query result — the spec's NotFound. -/
  | notFound : Err
  /-- `FileExistsError` from `open(path, 'x')` on an existing file. -/
  | fileExists (path : String) : Err
  /-- `FileNotFoundError`: reading an archive file that was never written. -/
  | fileNotFound (path : String) : Err
  /-- A bulk insert handed a malformed row mapping. -/
  | insertError : Err
deriving Repr, DecidableEq

/-- The model-storage backend classes named in `model_storage_map` and
`component_storage_map` (their behaviour is external to this slice; only
their identity matters here). -/
inductive ModelStorageClass where
  | mysqlModelStorage
  | tencentCOSModelStorage
  | mysqlComponentStorage
  | tencentCOSComponentStorage
deriving Repr, DecidableEq

/-- `model_storage_map` from sync_model.py. -/
def model_storage_map : List (String × ModelStorageClass) :=
  [("mysql", ModelStorageClass.mysqlModelStorage),
   ("tencent_cos", ModelStorageClass.tencentCOSModelStorage)]

/-- `component_storage_map` from sync_model.py. -/
def component_storage_map : List (String × ModelStorageClass) :=
  [("mysql", ModelStorageClass.mysqlComponentStorage),
   ("tencent_cos", ModelStorageClass.tencentCOSComponentStorage)]

/-- Result of `get_storage`, together with the `ServerRegistry.MODEL_STORE_ADDRESS`
configuration as it stands after the call (the call `deepcopy`s the registry
value, so the pop below acts on the copy and the registry is returned
unchanged). -/
structure GetStorageOut where
  result : Except Err (ModelStorageClass × List (String × String))
  registry_after : List (String × String)
deriving Repr

/-- `get_storage(storage_map)` from sync_model.py: deep-copy the registered
store address, pop its `storage` discriminator key, and resolve the backend
class in the given map. -/
def get_storage (storage_map : List (String × ModelStorageClass))
    (model_store_address : List (String × String)) : GetStorageOut :=
  let store_address := model_store_address
  match dpop store_address "storage" with
  | none => { result := .error (.keyError "storage"), registry_after := model_store_address }
  | some (store_type, rest) =>
      match dget storage_map store_type with
      | none =>
          { result := .error (.unsupportedBackend store_type)
            registry_after := model_store_address }
      | some cls =>
          { result := .ok (cls, rest), registry_after := model_store_address }

/-- The row of `MachineLearningModelInfo` read and written by `SyncModel`
(only the two fields this slice touches). -/
structure MLModelRecord where
  f_archive_sha256 : String
  f_archive_from_ip : String
deriving Repr, DecidableEq

/-- The externally observable calls made by the orchestrators. -/
inductive Ev where
  /-- `storage(...)`: a backend instance is constructed. -/
  | constructBackend (cls : ModelStorageClass) (address : List (String × String))
  /-- `model_storage.store(force_update=..., **parameters)`. -/
  | storeModel (force_update : Bool)
  /-- `model_storage.restore(force_update=..., hash_=..., **parameters)`. -/
  | restoreModel (force_update : Bool) (hash_ : String)
  /-- `model.save()` writing the record back to the database. -/
  | saveModel (rec : MLModelRecord)
deriving Repr, DecidableEq

/-- `true` exactly for the `store` events, to count transfer calls. -/
def Ev.isStore : Ev → Bool
  | .storeModel _ => true
  | _ => false

/-- The environment a `SyncModel` method runs in: the answers its external
collaborators would give.  `remote_exits` is what `model_storage.exists`
returns, `local_exits` what `pipelined_model.exists` returns, `db_model` the
`MLModel.get` result (`none` meaning `DoesNotExist`), `store_hash` the hash
`model_storage.store` would return, and `host` is `settings.HOST`. -/
structure SyncModelEnv where
  remote_exits : Bool
  local_exits : Bool
  db_model : Option MLModelRecord
  store_hash : String
  host : String
deriving Repr, DecidableEq

/-- `SyncModel.upload(force_update)` from sync_model.py, returning the Python
return value (`none` for the bare `return`) and the trace of external calls. -/
def SyncModel.upload (env : SyncModelEnv) (force_update : Bool) :
    Except Err (Option MLModelRecord) × List Ev :=
  if env.remote_exits && !force_update then (.ok none, [])
  else
    match env.db_model with
    | none => (.error .doesNotExist, [])
    | some model =>
        let hash_ := env.store_hash
        let model2 := { model with
          f_archive_sha256 := hash_
          f_archive_from_ip := env.host }
        (.ok (some model2), [.storeModel force_update, .saveModel model2])

/-- `SyncModel.download(force_update)` from sync_model.py. -/
def SyncModel.download (env : SyncModelEnv) (force_update : Bool) :
    Except Err (Option MLModelRecord) × List Ev :=
  if env.local_exits && !force_update then (.ok none, [])
  else
    match env.db_model with
    | none => (.error .doesNotExist, [])
    | some model =>
        if force_update || model.f_archive_from_ip ≠ env.host then
          (.ok (some model), [.restoreModel force_update model.f_archive_sha256])
        else
          (.ok (some model), [])

/-! ## pipelined_component.py : data model -/

/-- A component's proto-index: artifact file name → buffer/descriptor name
(`f_model_proto_index` is a dict; its entries are only stored, copied and
compared by the operations verified here). -/
abbrev ProtoIndex := List (String × String)

/-- The model identity held by a `PipelinedComponent` (role, party_id,
model_id split out of the party-scoped model id, plus the version). -/
structure ModelIdentity where
  role : String
  party_id : String
  model_id : String
  model_version : String
deriving Repr, DecidableEq

/-- `role#party_id#model_id`, the party-scoped model id string. -/
def ModelIdentity.party_model_id (i : ModelIdentity) : String :=
  i.role ++ "#" ++ i.party_id ++ "#" ++ i.model_id

/-- A `PipelineComponentMeta` row (the spec's ComponentMetadataRecord); the
run-parameters blob is opaque to this slice and kept as a map. -/
structure PipelineComponentMeta where
  f_model_id : String
  f_model_version : String
  f_role : String
  f_party_id : String
  f_component_name : String
  f_component_module_name : String
  f_model_alias : String
  f_model_proto_index : ProtoIndex
  f_run_parameters : List (String × String)
  f_archive_sha256 : String
  f_archive_from_ip : String
deriving Repr, DecidableEq

/-- Modelled from the spec: the record's run-parameters accessor used by
`save_define_meta_from_db_to_file` (`PipelineComponentMeta` itself is declared
in `fate_flow/db/db_models.py`, outside this slice; the spec lists
`run_parameters` among the component metadata record fields). -/
def PipelineComponentMeta.run_parameters (r : PipelineComponentMeta) :
    List (String × String) :=
  r.f_run_parameters

/-- The define-meta document: `component_define` maps a component name to its
module name (the `module_name` entry of the per-component mapping), and
`model_proto` maps a component name to its alias → proto-index map. -/
structure DefineMeta where
  component_define : List (String × String)
  model_proto : List (String × List (String × ProtoIndex))
deriving Repr, DecidableEq

/-! ## pipelined_component.py : define-meta reconciliation -/

/-- One step of the `rearrange_define_meta` loop body for a row. -/
def rearrangeStep (dm : DefineMeta) (row : PipelineComponentMeta) : DefineMeta :=
  let cd := dinsert dm.component_define row.f_component_name row.f_component_module_name
  let inner := (dget dm.model_proto row.f_component_name).getD []
  let mp := dinsert dm.model_proto row.f_component_name
    (dinsert inner row.f_model_alias row.f_model_proto_index)
  { component_define := cd, model_proto := mp }

/-- `rearrange_define_meta(data)`: build the define-meta document from rows.
The source ensures `model_proto[name]` exists (binding `{}` when absent) and
then sets the alias entry in place; that equals inserting the grown inner map
at `name`, which `rearrangeStep` does. -/
def rearrange_define_meta (data : List PipelineComponentMeta) : DefineMeta :=
  data.foldl rearrangeStep { component_define := [], model_proto := [] }

/-- `get_define_meta()`: the database-derived view when any row matches the
identity (`db` is the identity-filtered query result), else the parsed
on-disk snapshot. -/
def get_define_meta (db : List PipelineComponentMeta) (file_doc : DefineMeta) :
    DefineMeta :=
  if db.isEmpty then file_doc else rearrange_define_meta db

/-- One row inserted by `save_define_meta_from_file_to_db` for the
`component_define` entry `cd` and the alias entry `al` of its `model_proto`
map.  The two archive fields are absent from the insert mapping in the
source; they take the table's default (empty here). -/
def importRow (ident : ModelIdentity)
    (run_parameters : List (String × List (String × String)))
    (cd : String × String) (al : String × ProtoIndex) : PipelineComponentMeta :=
  { f_model_id := ident.model_id,
    f_model_version := ident.model_version,
    f_role := ident.role,
    f_party_id := ident.party_id,
    f_component_name := cd.1,
    f_component_module_name := cd.2,
    f_model_alias := al.1,
    f_model_proto_index := al.2,
    f_run_parameters := (dget run_parameters cd.1).getD [],
    f_archive_sha256 := "",
    f_archive_from_ip := "" }

/-- The `save_define_meta_from_file_to_db` row-building loops over a list of
`component_define` entries: one row per alias of each component's
`model_proto` entry; a component missing from `model_proto` is a `KeyError`. -/
def rowsFold (ident : ModelIdentity) (doc : DefineMeta)
    (run_parameters : List (String × List (String × String)))
    (cds : List (String × String)) : Except Err (List PipelineComponentMeta) :=
  cds.foldr
    (fun cd acc =>
      match dget doc.model_proto cd.1 with
      | none => .error (.keyError cd.1)
      | some aliases =>
          match acc with
          | .error e => .error e
          | .ok rest => .ok (aliases.map (importRow ident run_parameters cd) ++ rest))
    (.ok [])

/-- The rows built by the `save_define_meta_from_file_to_db` loops, iterating
the document's `component_define` entries in order. -/
def rowsOfDefineMeta (ident : ModelIdentity) (doc : DefineMeta)
    (run_parameters : List (String × List (String × String))) :
    Except Err (List PipelineComponentMeta) :=
  rowsFold ident doc run_parameters doc.component_define

/-- The rows `rowsFold` produces when every listed component has a
`model_proto` entry: for each `component_define` entry in order, one row per
alias. -/
def rowsListFor (ident : ModelIdentity) (doc : DefineMeta)
    (run_parameters : List (String × List (String × String))) :
    List (String × String) → List PipelineComponentMeta
  | [] => []
  | cd :: rest =>
      ((dget doc.model_proto cd.1).getD []).map (importRow ident run_parameters cd)
        ++ rowsListFor ident doc run_parameters rest

/-- `save_define_meta_from_file_to_db()`: refuse when any row already exists
for the identity, else bulk-insert one row per (component, alias) of the
file document (`db` is the identity-filtered table, `run_parameters` the
`get_run_parameters_from_files()` result).  Returns the outcome and the
table afterwards. -/
def save_define_meta_from_file_to_db (ident : ModelIdentity)
    (db : List PipelineComponentMeta) (file_doc : DefineMeta)
    (run_parameters : List (String × List (String × String))) :
    Except Err Unit × List PipelineComponentMeta :=
  if db.length > 0 then (.error .alreadyExists, db)
  else
    match rowsOfDefineMeta ident file_doc run_parameters with
    | .error e => (.error e, db)
    | .ok insert => (.ok (), db ++ insert)

/-! ## pipelined_component.py : db → file migration -/

/-- Contents of the files this slice writes. -/
inductive FileContent where
  /-- `json_dumps(row.run_parameters)`. -/
  | jsonMap (m : List (String × String))
  /-- `yaml.dump(rearrange_define_meta(query))`. -/
  | yamlDefineMeta (d : DefineMeta)
deriving Repr, DecidableEq

/-- The model root `model_local_cache/<party_model_id>/<model_version>`. -/
def modelPath (ident : ModelIdentity) : String :=
  "model_local_cache/" ++ ident.party_model_id ++ "/" ++ ident.model_version

/-- `define_meta_path` of a `PipelinedComponent`. -/
def define_meta_path (ident : ModelIdentity) : String :=
  modelPath ident ++ "/define/define_meta.yaml"

/-- `get_run_parameters_path(component_name)`. -/
def get_run_parameters_path (ident : ModelIdentity) (component_name : String) :
    String :=
  modelPath ident ++ "/run_parameters/" ++ component_name ++ "/run_parameters.json"

/-- One run-parameters file write of `save_define_meta_from_db_to_file`:
`open(path, 'x')` fails with `FileExistsError` when the path exists, else
creates the file. -/
def writeRunParametersFile (ident : ModelIdentity)
    (st : Except Err Unit × List (String × FileContent))
    (row : PipelineComponentMeta) :
    Except Err Unit × List (String × FileContent) :=
  match st with
  | (.error e, fs) => (.error e, fs)
  | (.ok _, fs) =>
      let p := get_run_parameters_path ident row.f_component_name
      if (dget fs p).isSome then (.error (.fileExists p), fs)
      else (.ok (), dinsert fs p (.jsonMap row.run_parameters))

/-- `save_define_meta_from_db_to_file()`: fail when no row matches the
identity, write each row's run-parameters file and then the define-meta
snapshot, every file opened in exclusive-create (`'x'`) mode.  `fs` is the
file system restricted to these paths; files created before a failing
exclusive open persist, exactly as in the source. -/
def save_define_meta_from_db_to_file (ident : ModelIdentity)
    (db : List PipelineComponentMeta) (fs : List (String × FileContent)) :
    Except Err Unit × List (String × FileContent) :=
  if db.isEmpty then (.error .notFound, fs)
  else
    match db.foldl (writeRunParametersFile ident) (.ok (), fs) with
    | (.error e, fs2) => (.error e, fs2)
    | (.ok _, fs2) =>
        let dp := define_meta_path ident
        if (dget fs2 dp).isSome then (.error (.fileExists dp), fs2)
        else (.ok (), dinsert fs2 dp (.yamlDefineMeta (rearrange_define_meta db)))

/-! ## pipelined_component.py : replicate_define_meta -/

/-- A column value of the metadata table as it appears in `row.to_dict()`:
the row id, a string column, or a map-valued (JSON) column. -/
inductive Val where
  | n (v : Nat)
  | s (v : String)
  | m (v : List (String × String))
deriving Repr, DecidableEq

/-- Modelled from the spec: `row.to_dict()` of a metadata record (declared in
`fate_flow/db/db_models.py`, outside this slice) — the column-name → value
mapping, column names carrying the `f_` prefix, plus the row id under `id`. -/
def PipelineComponentMeta.to_dict (id : Nat) (r : PipelineComponentMeta) :
    List (String × Val) :=
  [("id", .n id),
   ("f_model_id", .s r.f_model_id),
   ("f_model_version", .s r.f_model_version),
   ("f_role", .s r.f_role),
   ("f_party_id", .s r.f_party_id),
   ("f_component_name", .s r.f_component_name),
   ("f_component_module_name", .s r.f_component_module_name),
   ("f_model_alias", .s r.f_model_alias),
   ("f_model_proto_index", .m r.f_model_proto_index),
   ("f_run_parameters", .m r.f_run_parameters),
   ("f_archive_sha256", .s r.f_archive_sha256),
   ("f_archive_from_ip", .s r.f_archive_from_ip)]

/-- `key[2:] if key.startswith('f_') else key`, computed on the character
list (Python slices by code point; the column names are ASCII). -/
def strip_f (key : String) : String :=
  if key.data.take 2 = ['f', '_'] then String.mk (key.data.drop 2) else key

/-- The per-row body of the `replicate_define_meta` loop: `to_dict`, drop the
id, strip the `f_` prefixes, and overwrite with the modification map. -/
def replicate_row_dict (id : Nat) (r : PipelineComponentMeta)
    (modification : List (String × Val)) : List (String × Val) :=
  let row := PipelineComponentMeta.to_dict id r
  let row := ddel row "id"
  let row := (row.filter (fun kv => kv.1 ≠ "id")).map (fun kv => (strip_f kv.1, kv.2))
  dupdate row modification

/-- Read a string column out of an insert mapping. -/
def getS (d : List (String × Val)) (k : String) : Option String :=
  match dget d k with
  | some (.s v) => some v
  | _ => none

/-- Read a map column out of an insert mapping. -/
def getM (d : List (String × Val)) (k : String) : Option (List (String × String)) :=
  match dget d k with
  | some (.m v) => some v
  | _ => none

/-- Modelled from the spec: `bulk_insert_into_db` (declared in
`fate_flow/db/db_utils.py`, outside this slice) materialises one fresh row per
column mapping; a mapping not matching the table's columns fails. -/
def rowFromInsertDict (d : List (String × Val)) : Option PipelineComponentMeta := do
  let model_id ← getS d "model_id"
  let model_version ← getS d "model_version"
  let role ← getS d "role"
  let party_id ← getS d "party_id"
  let component_name ← getS d "component_name"
  let component_module_name ← getS d "component_module_name"
  let model_alias ← getS d "model_alias"
  let model_proto_index ← getM d "model_proto_index"
  let run_parameters ← getM d "run_parameters"
  let archive_sha256 ← getS d "archive_sha256"
  let archive_from_ip ← getS d "archive_from_ip"
  pure
    { f_model_id := model_id,
      f_model_version := model_version,
      f_role := role,
      f_party_id := party_id,
      f_component_name := component_name,
      f_component_module_name := component_module_name,
      f_model_alias := model_alias,
      f_model_proto_index := model_proto_index,
      f_run_parameters := run_parameters,
      f_archive_sha256 := archive_sha256,
      f_archive_from_ip := archive_from_ip }

/-- `replicate_define_meta(modification, query_args)`: `db` is the
identity-scoped table (row ids are the positions, paired on via `enum`, and
dropped again by the loop body); `extraFilter` is the additional filter
`query_args`.  Fails when nothing matches; otherwise bulk-inserts one copy
per matched row, the copy's dict built by `replicate_row_dict`.  Returns the
outcome and the table afterwards. -/
def replicate_define_meta (db : List PipelineComponentMeta)
    (extraFilter : PipelineComponentMeta → Bool)
    (modification : List (String × Val)) :
    Except Err Unit × List PipelineComponentMeta :=
  let query := db.enum.filter (fun ir => extraFilter ir.2)
  if query.isEmpty then (.error .notFound, db)
  else
    let inserts := query.map (fun ir => replicate_row_dict ir.1 ir.2 modification)
    match inserts.mapM rowFromInsertDict with
    | none => (.error .insertError, db)
    | some newRows => (.ok (), db ++ newRows)

/-! ## pipelined_component.py : pack / unpack -/

/-- A path relative to the model root, as its list of segments. -/
abbrev RelPath := List String

/-- The component file tree under the model root: relative path → bytes. -/
abbrev FileTree := List (RelPath × List Nat)

/-- The entries of a component archive: arcname (model-root-relative) → bytes. -/
abbrev Archive := List (RelPath × List Nat)

/-- `p` lies under the directory `dir` (i.e. `dir` leads `p`). -/
def dirContains : RelPath → RelPath → Bool
  | [], _ => true
  | _, [] => false
  | d :: ds, p :: ps => d == p && dirContains ds ps

/-- `walk_component(zip_file, dir_path)`: the directory recursion writes
exactly the files below `dir_path`, each under its path relative to the
model root — i.e. the sub-tree of the file tree below `dir`. -/
def walk_component (fs : FileTree) (dir : RelPath) : Archive :=
  fs.filter (fun e => dirContains dir e.1)

/-- `get_archive_path(component_name)` (within `TEMP_DIRECTORY`). -/
def get_archive_path (party_model_id model_version component_name : String) :
    String :=
  party_model_id ++ "_" ++ model_version ++ "_" ++ component_name ++ ".zip"

/-- `pack_component(component_name)`: archive the component's
`variables/data` and `checkpoint` sub-trees, hash the archive bytes, return
`(filename, hash)`; the archive is (over)written into the temp store.
`sha256` abstracts `hashlib.sha256(...).hexdigest()` over the written
archive's bytes. -/
def pack_component (sha256 : Archive → String) (fs : FileTree)
    (temp : List (String × Archive))
    (party_model_id model_version component_name : String) :
    (String × String) × List (String × Archive) :=
  let filename := get_archive_path party_model_id model_version component_name
  let ar := walk_component fs ["variables", "data", component_name]
    ++ walk_component fs ["checkpoint", component_name]
  let hash_ := sha256 ar
  ((filename, hash_), dinsert temp filename ar)

/-- `zip_file.extractall(model_path)`: write every entry under the model
root, overwriting colliding paths. -/
def extractall (fs : FileTree) (ar : Archive) : FileTree :=
  ar.foldl (fun acc e => dinsert acc e.1 e.2) fs

/-- `unpack_component(component_name, hash_)`: when a hash is supplied,
recompute the archive's digest and abort on mismatch before extracting;
otherwise extract into the model root.  Returns the outcome, the file tree
afterwards and the temp store afterwards. -/
def unpack_component (sha256 : Archive → String) (fs : FileTree)
    (temp : List (String × Archive))
    (party_model_id model_version component_name : String)
    (hash_ : Option String) :
    Except Err Unit × FileTree × List (String × Archive) :=
  let filename := get_archive_path party_model_id model_version component_name
  match dget temp filename with
  | none => (.error (.fileNotFound filename), fs, temp)
  | some ar =>
      match hash_ with
      | some h =>
          let sha256v := sha256 ar
          if h ≠ sha256v then (.error (.integrityMismatch h sha256v), fs, temp)
          else (.ok (), extractall fs ar, temp)
      | none => (.ok (), extractall fs ar, temp)

/-! ## sync_model.py : SyncComponent -/

/-- `SyncComponent.get_archive_hash` reads the `(f_archive_sha256,
f_archive_from_ip)` pair of every row matching identity + component. -/
def archivePair (r : PipelineComponentMeta) : String × String :=
  (r.f_archive_sha256, r.f_archive_from_ip)

/-- The distinct values of a list in first-occurrence order — the groups a
SQL `GROUP BY` produces. -/
def distinctPairs (l : List (String × String)) : List (String × String) :=
  l.foldl (fun acc p => if p ∈ acc then acc else acc ++ [p]) []

/-- `SyncComponent.get_archive_hash()`: group the matched rows by
`(f_archive_sha256, f_archive_from_ip)`; unless exactly one group exists the
metadata is invalid; otherwise return the group's hash. -/
def SyncComponent.get_archive_hash (rows : List PipelineComponentMeta) :
    Except Err String :=
  match distinctPairs (rows.map archivePair) with
  | [g] => .ok g.1
  | _ => .error .inconsistentMetadata

/-- The `PipelinedModel(party_model_id, model_version)` handle as read by
`SyncComponent.__init__` (only the two attributes it dereferences). -/
structure PipelinedModel where
  party_model_id : String
  model_version : String
deriving Repr, DecidableEq

/-- The attributes of a `SyncComponent` instance under construction; every
attribute starts unassigned (`none`) and is assigned in statement order. -/
structure SyncComponentObj where
  component_storage : Option ModelStorageClass := none
  component_storage_parameters : Option (String × String × String) := none
  pipelined_model : Option PipelinedModel := none
  component_name : Option String := none
deriving Repr, DecidableEq

/-- `self.<name>`: reading an attribute that was never assigned raises
`AttributeError`. -/
def getattr {α : Type} (name : String) : Option α → Except Err α
  | none => .error (.attributeError name)
  | some a => .ok a

/-- `SyncComponent.__init__(party_model_id, model_version, component_name)`
in statement order: resolve the backend via `get_storage(model_storage_map)`,
construct it, then build `component_storage_parameters` — which dereferences
`self.pipelined_model` and `self.component_name` before either is assigned.
The remaining constructor statements (`query_args`, the lock) come after the
assignments and cannot be reached any earlier.  Returns the constructed
instance or the raised error, plus the trace of external calls. -/
def SyncComponent.init (party_model_id model_version component_name : String)
    (model_store_address : List (String × String)) :
    Except Err SyncComponentObj × List Ev :=
  match (get_storage model_storage_map model_store_address).result with
  | .error e => (.error e, [])
  | .ok (storage, storage_address) =>
      let self0 : SyncComponentObj := { component_storage := some storage }
      let events := [Ev.constructBackend storage storage_address]
      match getattr "pipelined_model" self0.pipelined_model with
      | .error e => (.error e, events)
      | .ok pm =>
          match getattr "component_name" self0.component_name with
          | .error e => (.error e, events)
          | .ok cname =>
              let self1 := { self0 with
                component_storage_parameters :=
                  some (pm.party_model_id, pm.model_version, cname) }
              let self2 := { self1 with
                pipelined_model :=
                  some (PipelinedModel.mk party_model_id model_version) }
              let self3 := { self2 with component_name := some component_name }
              (.ok self3, events)

/-! ## C9 support: the spec-side description of a replicated row -/

/-- The string-valued columns of the metadata table (post-strip names). -/
def stringColumns : List String :=
  ["model_id", "model_version", "role", "party_id", "component_name",
   "component_module_name", "model_alias", "archive_sha256", "archive_from_ip"]

/-- The map-valued (JSON) columns of the metadata table (post-strip names). -/
def mapColumns : List String :=
  ["model_proto_index", "run_parameters"]

/-- A modification entry is column-shaped when its key names a column of the
table and its value has that column's shape. -/
def columnShape (k : String) : Val → Bool
  | .s _ => stringColumns.contains k
  | .m _ => mapColumns.contains k
  | .n _ => false

/-- Every entry of the modification map is column-shaped. -/
def modOk (m : List (String × Val)) : Bool :=
  m.all (fun kv => columnShape kv.1 kv.2)

/-- The string value the modification map assigns to column `k`, defaulting
to the source row's value `d`. -/
def pickS (m : List (String × Val)) (k : String) (d : String) : String :=
  match dget m k with
  | some (.s v) => v
  | _ => d

/-- The map value the modification map assigns to column `k`, defaulting to
the source row's value `d`. -/
def pickM (m : List (String × Val)) (k : String) (d : List (String × String)) :
    List (String × String) :=
  match dget m k with
  | some (.m v) => v
  | _ => d

/-- Stated from the spec's words, for comparison with the dict pipeline the
code performs: a replicated row is identical to the source row except for the
fields overwritten by the modification map (the row id having been dropped). -/
def specOverwriteRow (modification : List (String × Val))
    (r : PipelineComponentMeta) : PipelineComponentMeta :=
  { f_model_id := pickS modification "model_id" r.f_model_id,
    f_model_version := pickS modification "model_version" r.f_model_version,
    f_role := pickS modification "role" r.f_role,
    f_party_id := pickS modification "party_id" r.f_party_id,
    f_component_name := pickS modification "component_name" r.f_component_name,
    f_component_module_name :=
      pickS modification "component_module_name" r.f_component_module_name,
    f_model_alias := pickS modification "model_alias" r.f_model_alias,
    f_model_proto_index := pickM modification "model_proto_index" r.f_model_proto_index,
    f_run_parameters := pickM modification "run_parameters" r.f_run_parameters,
    f_archive_sha256 := pickS modification "archive_sha256" r.f_archive_sha256,
    f_archive_from_ip := pickS modification "archive_from_ip" r.f_archive_from_ip }

/-- The row dict after `del row['id']` and `f_`-stripping, before the
`update(modification)`. -/
def strippedRow (r : PipelineComponentMeta) : List (String × Val) :=
  [("model_id", .s r.f_model_id),
   ("model_version", .s r.f_model_version),
   ("role", .s r.f_role),
   ("party_id", .s r.f_party_id),
   ("component_name", .s r.f_component_name),
   ("component_module_name", .s r.f_component_module_name),
   ("model_alias", .s r.f_model_alias),
   ("model_proto_index", .m r.f_model_proto_index),
   ("run_parameters", .m r.f_run_parameters),
   ("archive_sha256", .s r.f_archive_sha256),
   ("archive_from_ip", .s r.f_archive_from_ip)]

/-! ## Lemmas about the dict model -/

theorem dget_dinsert_self {α β : Type} [DecidableEq α] (m : List (α × β)) (k : α) (v : β) :
    dget (dinsert m k v) k = some v := by
  induction m with
  | nil => simp [dinsert, dget]
  | cons kv rest ih =>
      obtain ⟨k2, v2⟩ := kv
      by_cases h : k2 = k
      · subst h; simp [dinsert, dget]
      · simp [dinsert, dget, h, ih]

theorem dget_dinsert_ne {α β : Type} [DecidableEq α] (m : List (α × β)) {k k2 : α} (v : β)
    (h : k ≠ k2) : dget (dinsert m k v) k2 = dget m k2 := by
  induction m with
  | nil => simp [dinsert, dget, h]
  | cons kv rest ih =>
      obtain ⟨k3, v3⟩ := kv
      by_cases h3 : k3 = k
      · subst h3; simp [dinsert, dget, h]
      · simp only [dinsert, if_neg h3]
        by_cases h4 : k3 = k2
        · simp [dget, h4]
        · simp [dget, h4, ih]

theorem dget_append {α β : Type} [DecidableEq α] (xs ys : List (α × β)) (k : α) :
    dget (xs ++ ys) k = (dget xs k).or (dget ys k) := by
  induction xs with
  | nil => simp [dget]
  | cons kv rest ih =>
      obtain ⟨k2, v2⟩ := kv
      by_cases h : k2 = k
      · simp [dget, h]
      · simp [dget, h, ih]

theorem dinsert_append_of_none {α β : Type} [DecidableEq α] {m : List (α × β)} {k : α}
    (v : β) (h : dget m k = none) : dinsert m k v = m ++ [(k, v)] := by
  induction m with
  | nil => simp [dinsert]
  | cons kv rest ih =>
      obtain ⟨k2, v2⟩ := kv
      by_cases h2 : k2 = k
      · subst h2; simp [dget] at h
      · simp [dget, h2] at h
        simp [dinsert, h2, ih h]

theorem dinsert_of_dget_eq {α β : Type} [DecidableEq α] {m : List (α × β)} {k : α}
    {v : β} (h : dget m k = some v) : dinsert m k v = m := by
  induction m with
  | nil => simp [dget] at h
  | cons kv rest ih =>
      obtain ⟨k2, v2⟩ := kv
      by_cases h2 : k2 = k
      · subst h2
        simp [dget] at h
        simp [dinsert, h]
      · simp [dget, h2] at h
        simp [dinsert, h2, ih h]

theorem dget_mem {α β : Type} [DecidableEq α] {m : List (α × β)} {k : α} {v : β}
    (h : dget m k = some v) : (k, v) ∈ m := by
  induction m with
  | nil => simp [dget] at h
  | cons kv rest ih =>
      obtain ⟨k2, v2⟩ := kv
      by_cases h2 : k2 = k
      · subst h2
        simp [dget] at h
        simp [h]
      · simp [dget, h2] at h
        exact List.mem_cons_of_mem _ (ih h)

theorem dget_eq_none_iff {α β : Type} [DecidableEq α] (m : List (α × β)) (k : α) :
    dget m k = none ↔ k ∉ dkeys m := by
  induction m with
  | nil => simp [dget, dkeys]
  | cons kv rest ih =>
      obtain ⟨k2, v2⟩ := kv
      by_cases h : k2 = k
      · subst h; simp [dget, dkeys]
      · simp [dget, dkeys, h, ih, Ne.symm h]

theorem foldl_dinsert_eq_append {α β : Type} [DecidableEq α] :
    ∀ (l acc : List (α × β)), (∀ p ∈ l, dget acc p.1 = none) → (dkeys l).Nodup →
      l.foldl (fun a kv => dinsert a kv.1 kv.2) acc = acc ++ l := by
  intro l
  induction l with
  | nil => intro acc _ _; simp
  | cons kv rest ih =>
      intro acc hfresh hnd
      obtain ⟨k, v⟩ := kv
      have hk : dget acc k = none := hfresh (k, v) (List.mem_cons_self _ _)
      have hstep : dinsert acc k v = acc ++ [(k, v)] := dinsert_append_of_none v hk
      simp only [List.foldl_cons, hstep]
      have hnd1 : (k :: dkeys rest).Nodup := hnd
      have hknotin : k ∉ dkeys rest := (List.nodup_cons.mp hnd1).1
      have hnd2 : (dkeys rest).Nodup := (List.nodup_cons.mp hnd1).2
      have hfresh2 : ∀ p ∈ rest, dget (acc ++ [(k, v)]) p.1 = none := by
        intro p hp
        have h1 : dget acc p.1 = none := hfresh p (List.mem_cons_of_mem _ hp)
        have h2 : p.1 ≠ k := by
          intro hEq
          exact hknotin (hEq ▸ (List.mem_map_of_mem Prod.fst hp))
        have h3 : dget [(k, v)] p.1 = none := by
          simp [dget, h2.symm]
        simp [dget_append, h1, h3]
      rw [ih (acc ++ [(k, v)]) hfresh2 hnd2, List.append_assoc]
      rfl

theorem dget_dupdate {α β : Type} [DecidableEq α] :
    ∀ (e m : List (α × β)) (k : α), (dkeys e).Nodup →
      dget (dupdate m e) k = (dget e k).or (dget m k) := by
  intro e
  induction e with
  | nil => intro m k _; simp [dupdate, dget]
  | cons kv rest ih =>
      intro m k hnd
      obtain ⟨k2, v2⟩ := kv
      have hnd1 : (k2 :: dkeys rest).Nodup := hnd
      have hknotin : k2 ∉ dkeys rest := (List.nodup_cons.mp hnd1).1
      have hnd2 : (dkeys rest).Nodup := (List.nodup_cons.mp hnd1).2
      have hstep : dupdate m ((k2, v2) :: rest) = dupdate (dinsert m k2 v2) rest := rfl
      rw [hstep, ih (dinsert m k2 v2) k hnd2]
      by_cases h : k2 = k
      · subst h
        have hrest : dget rest k2 = none := (dget_eq_none_iff rest k2).mpr hknotin
        simp [dget, hrest, dget_dinsert_self]
      · simp [dget, h, dget_dinsert_ne _ _ h]

theorem dget_filter {α β : Type} [DecidableEq α] (q : α → Bool) :
    ∀ (l : List (α × β)) (k : α),
      dget (l.filter (fun e => q e.1)) k = if q k then dget l k else none := by
  intro l
  induction l with
  | nil => intro k; simp [dget]
  | cons kv rest ih =>
      intro k
      obtain ⟨k2, v2⟩ := kv
      by_cases h : k2 = k
      · subst h
        by_cases hq : q k2
        · simp [List.filter, hq, dget]
        · simp [List.filter, hq, dget, ih, hq]
      · by_cases hq : q k2
        · simp [List.filter, hq, dget, h, ih]
        · simp [List.filter, hq, dget, h, ih]

theorem mem_fold_distinct (l : List (String × String)) :
    ∀ (acc : List (String × String)) (a : String × String),
      (a ∈ l.foldl (fun acc p => if p ∈ acc then acc else acc ++ [p]) acc ↔
        a ∈ acc ∨ a ∈ l) := by
  induction l with
  | nil => intro acc a; simp
  | cons x rest ih =>
      intro acc a
      by_cases hx : x ∈ acc
      · simp only [List.foldl_cons, if_pos hx, ih]
        constructor
        · rintro (h | h)
          · exact Or.inl h
          · exact Or.inr (List.mem_cons_of_mem _ h)
        · rintro (h | h)
          · exact Or.inl h
          · rcases List.mem_cons.mp h with rfl | h2
            · exact Or.inl hx
            · exact Or.inr h2
      · simp only [List.foldl_cons, if_neg hx, ih, List.mem_append,
          List.mem_singleton, List.mem_cons]
        tauto

theorem mem_distinctPairs (l : List (String × String)) (a : String × String) :
    a ∈ distinctPairs l ↔ a ∈ l := by
  simpa using mem_fold_distinct l [] a

theorem fold_distinct_const (p : String × String) :
    ∀ (l : List (String × String)), (∀ x ∈ l, x = p) →
      l.foldl (fun acc q => if q ∈ acc then acc else acc ++ [q]) [p] = [p] := by
  intro l
  induction l with
  | nil => intro _; simp
  | cons x rest ih =>
      intro hall
      have hx : x = p := hall x (List.mem_cons_self _ _)
      subst hx
      simp only [List.foldl_cons, if_pos (List.mem_singleton.mpr rfl)]
      exact ih (fun y hy => hall y (List.mem_cons_of_mem _ hy))

theorem distinctPairs_const (p : String × String) (l : List (String × String))
    (hne : l ≠ []) (hall : ∀ x ∈ l, x = p) : distinctPairs l = [p] := by
  cases l with
  | nil => exact absurd rfl hne
  | cons x rest =>
      have hx : x = p := hall x (List.mem_cons_self _ _)
      have h1 : distinctPairs (x :: rest) =
          rest.foldl (fun acc q => if q ∈ acc then acc else acc ++ [q]) [x] := by
        simp [distinctPairs]
      rw [h1, hx]
      exact fold_distinct_const p rest (fun y hy => hall y (List.mem_cons_of_mem _ hy))

/-! ## Claim theorems -/

/-- C1: `SyncModel.upload(force_update=false)` returns nothing and performs no
store when `remote_exits()` is true; otherwise (remote absent, or force_update
true) it fetches the ModelRecord (raising NotFound/DoesNotExist when absent),
calls `BlobStorage.store` exactly once to obtain a fresh hash, writes that
hash into `f_archive_sha256` and the local host into `f_archive_from_ip`, and
returns the updated record. -/
theorem C1_sync_model_upload (env : SyncModelEnv) (force_update : Bool) :
    (env.remote_exits = true ∧ force_update = false →
       SyncModel.upload env force_update = (.ok none, [])) ∧
    ((env.remote_exits = false ∨ force_update = true) →
       (env.db_model = none →
          SyncModel.upload env force_update = (.error .doesNotExist, [])) ∧
       (∀ m, env.db_model = some m →
          SyncModel.upload env force_update =
            (.ok (some { m with
               f_archive_sha256 := env.store_hash
               f_archive_from_ip := env.host }),
             [.storeModel force_update,
              .saveModel { m with
                f_archive_sha256 := env.store_hash
                f_archive_from_ip := env.host }]) ∧
          (SyncModel.upload env force_update).2.countP Ev.isStore = 1)) := by
  constructor
  · rintro ⟨h1, h2⟩
    simp [SyncModel.upload, h1, h2]
  · intro hcond
    have hguard : (env.remote_exits && !force_update) = false := by
      rcases hcond with h | h <;> simp [h]
    constructor
    · intro hnone
      simp [SyncModel.upload, hguard, hnone]
    · intro m hm
      constructor
      · simp [SyncModel.upload, hguard, hm]
      · simp [SyncModel.upload, hguard, hm, List.countP_cons, Ev.isStore]

theorem C1_sync_model_upload_witness :
    let env : SyncModelEnv :=
      { remote_exits := false, local_exits := false,
        db_model := some { f_archive_sha256 := "old", f_archive_from_ip := "a" },
        store_hash := "new", host := "b" }
    SyncModel.upload env false =
      (.ok (some { f_archive_sha256 := "new", f_archive_from_ip := "b" }),
       [.storeModel false,
        .saveModel { f_archive_sha256 := "new", f_archive_from_ip := "b" }]) ∧
    (SyncModel.upload env false).2.countP Ev.isStore = 1 :=
  ((C1_sync_model_upload _ false).2 (Or.inl rfl)).2 _ rfl

/-- C2: `SyncModel.download(force_update=false)` returns nothing and performs
no restore when `local_exits()` is true; otherwise it fetches the ModelRecord
and calls `BlobStorage.restore` with the recorded hash exactly when
force_update is true or the record's origin host differs from the local host,
then returns the record; when the origin host equals the local host and
force_update is false no restore happens even though the local copy is
absent. -/
theorem C2_sync_model_download (env : SyncModelEnv) (force_update : Bool) :
    (env.local_exits = true ∧ force_update = false →
       SyncModel.download env force_update = (.ok none, [])) ∧
    ((env.local_exits = false ∨ force_update = true) →
       (env.db_model = none →
          SyncModel.download env force_update = (.error .doesNotExist, [])) ∧
       (∀ m, env.db_model = some m →
          ((force_update = true ∨ m.f_archive_from_ip ≠ env.host) →
             SyncModel.download env force_update =
               (.ok (some m), [.restoreModel force_update m.f_archive_sha256])) ∧
          (force_update = false → m.f_archive_from_ip = env.host →
             SyncModel.download env force_update = (.ok (some m), [])))) := by
  constructor
  · rintro ⟨h1, h2⟩
    simp [SyncModel.download, h1, h2]
  · intro hcond
    have hguard : (env.local_exits && !force_update) = false := by
      rcases hcond with h | h <;> simp [h]
    constructor
    · intro hnone
      simp [SyncModel.download, hguard, hnone]
    · intro m hm
      constructor
      · intro hrestore
        rcases hrestore with h | h
        · simp [SyncModel.download, hguard, hm, h]
        · simp [SyncModel.download, hguard, hm, h]
      · intro hforce hip
        have hl : env.local_exits = false := by
          rcases hcond with h | h
          · exact h
          · simp [hforce] at h
        simp [SyncModel.download, hl, hforce, hm, hip]

theorem C2_sync_model_download_witness :
    let env : SyncModelEnv :=
      { remote_exits := false, local_exits := false,
        db_model := some { f_archive_sha256 := "h1", f_archive_from_ip := "hostA" },
        store_hash := "x", host := "hostB" }
    SyncModel.download env false =
      (.ok (some { f_archive_sha256 := "h1", f_archive_from_ip := "hostA" }),
       [.restoreModel false "h1"]) :=
  ((((C2_sync_model_download _ false).2 (Or.inl rfl)).2 _ rfl).1
    (Or.inr (by decide)))

/-- C3: `SyncComponent.get_archive_hash` groups the matched rows by
`(f_archive_sha256, f_archive_from_ip)` and fails with the inconsistent-
metadata error unless exactly one group exists (in particular on zero rows);
with exactly one group it returns that group's hash. -/
theorem C3_get_archive_hash (rows : List PipelineComponentMeta) :
    (rows = [] →
       SyncComponent.get_archive_hash rows = .error .inconsistentMetadata) ∧
    (∀ r1 r2, r1 ∈ rows → r2 ∈ rows → archivePair r1 ≠ archivePair r2 →
       SyncComponent.get_archive_hash rows = .error .inconsistentMetadata) ∧
    (∀ h ip, rows ≠ [] → (∀ r ∈ rows, archivePair r = (h, ip)) →
       SyncComponent.get_archive_hash rows = .ok h) := by
  refine ⟨?_, ?_, ?_⟩
  · rintro rfl
    rfl
  · intro r1 r2 h1 h2 hne
    have hm1 : archivePair r1 ∈ distinctPairs (rows.map archivePair) :=
      (mem_distinctPairs _ _).mpr (List.mem_map_of_mem _ h1)
    have hm2 : archivePair r2 ∈ distinctPairs (rows.map archivePair) :=
      (mem_distinctPairs _ _).mpr (List.mem_map_of_mem _ h2)
    unfold SyncComponent.get_archive_hash
    cases hd : distinctPairs (rows.map archivePair) with
    | nil => rfl
    | cons g gs =>
        cases gs with
        | nil =>
            rw [hd] at hm1 hm2
            simp only [List.mem_singleton] at hm1 hm2
            exact absurd (hm1.trans hm2.symm) hne
        | cons g2 gs2 => rfl
  · intro h ip hne hall
    have hmapne : rows.map archivePair ≠ [] := by
      cases rows with
      | nil => exact absurd rfl hne
      | cons r rest => simp
    have hmapall : ∀ x ∈ rows.map archivePair, x = (h, ip) := by
      intro x hx
      rcases List.mem_map.mp hx with ⟨r, hr, rfl⟩
      exact hall r hr
    unfold SyncComponent.get_archive_hash
    rw [distinctPairs_const (h, ip) _ hmapne hmapall]

theorem C3_get_archive_hash_witness :
    let rows : List PipelineComponentMeta :=
      [{ f_model_id := "m", f_model_version := "v", f_role := "guest",
         f_party_id := "p", f_component_name := "c",
         f_component_module_name := "mod", f_model_alias := "a",
         f_model_proto_index := [], f_run_parameters := [],
         f_archive_sha256 := "abc", f_archive_from_ip := "ip1" }]
    SyncComponent.get_archive_hash rows = .ok "abc" :=
  (C3_get_archive_hash _).2.2 "abc" "ip1" (by decide) (by decide)

/-- C4: `SyncComponent.__init__` fails unconditionally: it dereferences
`self.pipelined_model` (and then `self.component_name`) to build
`component_storage_parameters` before those attributes are assigned, so no
instance is ever constructed; moreover the backend it constructs first is
resolved in the model-level `model_storage_map`, not the component-level
map. -/
theorem C4_sync_component_init (party_model_id model_version component_name : String)
    (model_store_address : List (String × String)) :
    (∀ obj, (SyncComponent.init party_model_id model_version component_name
       model_store_address).1 ≠ .ok obj) ∧
    (∀ ty rest cls, dpop model_store_address "storage" = some (ty, rest) →
       dget model_storage_map ty = some cls →
       SyncComponent.init party_model_id model_version component_name
           model_store_address =
         (.error (.attributeError "pipelined_model"),
          [.constructBackend cls rest])) := by
  constructor
  · intro obj
    cases hres : (get_storage model_storage_map model_store_address).result with
    | error e => simp [SyncComponent.init, hres]
    | ok p =>
        obtain ⟨st, addr⟩ := p
        simp [SyncComponent.init, hres, getattr]
  · intro ty rest cls hpop hcls
    have hres : (get_storage model_storage_map model_store_address).result =
        .ok (cls, rest) := by
      simp [get_storage, hpop, hcls]
    simp [SyncComponent.init, hres, getattr]

theorem C4_sync_component_init_witness :
    SyncComponent.init "guest#9999#m" "v1" "comp"
        [("storage", "mysql"), ("host", "db")] =
      (.error (.attributeError "pipelined_model"),
       [.constructBackend .mysqlModelStorage [("host", "db")]]) :=
  (C4_sync_component_init _ _ _ _).2 "mysql" [("host", "db")]
    .mysqlModelStorage (by decide) (by decide)

/-- C5: `unpack_component` with a supplied hash recomputes the archive's
digest and, on mismatch, raises the integrity error before any extraction —
the destination file tree and the archive file are left untouched; only on a
match (or with no hash supplied) does it extract into the model root. -/
theorem C5_unpack_component (sha256 : Archive → String) (fs : FileTree)
    (temp : List (String × Archive)) (pmid mv cname : String) (ar : Archive)
    (htemp : dget temp (get_archive_path pmid mv cname) = some ar) :
    (∀ h, h ≠ sha256 ar →
       unpack_component sha256 fs temp pmid mv cname (some h) =
         (.error (.integrityMismatch h (sha256 ar)), fs, temp)) ∧
    (unpack_component sha256 fs temp pmid mv cname (some (sha256 ar)) =
       (.ok (), extractall fs ar, temp)) ∧
    (unpack_component sha256 fs temp pmid mv cname none =
       (.ok (), extractall fs ar, temp)) := by
  refine ⟨?_, ?_, ?_⟩
  · intro h hne
    simp [unpack_component, htemp, hne]
  · simp [unpack_component, htemp]
  · simp [unpack_component, htemp]

theorem C5_unpack_component_witness :
    unpack_component (fun _ => "good") [] [("pm_v_c.zip", [])] "pm" "v" "c"
        (some "bad") =
      (.error (.integrityMismatch "bad" "good"), [], [("pm_v_c.zip", [])]) ∧
    unpack_component (fun _ => "good") [] [("pm_v_c.zip", [])] "pm" "v" "c"
        (some "good") =
      (.ok (), [], [("pm_v_c.zip", [])]) :=
  ⟨(C5_unpack_component (fun _ => "good") [] [("pm_v_c.zip", [])] "pm" "v" "c"
      [] (by decide)).1 "bad" (by decide),
   (C5_unpack_component (fun _ => "good") [] [("pm_v_c.zip", [])] "pm" "v" "c"
      [] (by decide)).2.1⟩

/-- C10: `get_storage` works on a deep copy of the registered store address —
the registry is never mutated by a call, even though the copy has its
`storage` discriminator key removed — and an unregistered backend name fails
with the unsupported-backend error before any backend is constructed (the
constructor trace of a caller hitting this error is empty), while a
registered name yields that backend's class plus the remaining address
fields. -/
theorem C10_get_storage (storage_map : List (String × ModelStorageClass))
    (model_store_address : List (String × String)) :
    ((get_storage storage_map model_store_address).registry_after =
       model_store_address) ∧
    (∀ ty rest, dpop model_store_address "storage" = some (ty, rest) →
       (dget storage_map ty = none →
          (get_storage storage_map model_store_address).result =
            .error (.unsupportedBackend ty)) ∧
       (∀ cls, dget storage_map ty = some cls →
          (get_storage storage_map model_store_address).result =
            .ok (cls, rest))) ∧
    (∀ ty rest, dpop model_store_address "storage" = some (ty, rest) →
       dget model_storage_map ty = none →
       ∀ pmid mv cname,
         SyncComponent.init pmid mv cname model_store_address =
           (.error (.unsupportedBackend ty), [])) := by
  refine ⟨?_, ?_, ?_⟩
  · cases hpop : dpop model_store_address "storage" with
    | none => simp [get_storage, hpop]
    | some p =>
        obtain ⟨ty, rest⟩ := p
        cases hty : dget storage_map ty with
        | none => simp [get_storage, hpop, hty]
        | some cls => simp [get_storage, hpop, hty]
  · intro ty rest hpop
    constructor
    · intro hty
      simp [get_storage, hpop, hty]
    · intro cls hty
      simp [get_storage, hpop, hty]
  · intro ty rest hpop hty pmid mv cname
    have hres : (get_storage model_storage_map model_store_address).result =
        .error (.unsupportedBackend ty) := by
      simp [get_storage, hpop, hty]
    simp [SyncComponent.init, hres]

theorem C10_get_storage_witness :
    (get_storage model_storage_map [("storage", "s3"), ("host", "db")]).result =
      .error (.unsupportedBackend "s3") ∧
    (get_storage model_storage_map [("storage", "s3"), ("host", "db")]).registry_after =
      [("storage", "s3"), ("host", "db")] ∧
    (get_storage model_storage_map [("storage", "mysql"), ("host", "db")]).result =
      .ok (.mysqlModelStorage, [("host", "db")]) ∧
    SyncComponent.init "pm" "v" "c" [("storage", "s3"), ("host", "db")] =
      (.error (.unsupportedBackend "s3"), []) :=
  ⟨((C10_get_storage model_storage_map _).2.1 "s3" [("host", "db")]
      (by decide)).1 (by decide),
   (C10_get_storage model_storage_map [("storage", "s3"), ("host", "db")]).1,
   ((C10_get_storage model_storage_map _).2.1 "mysql" [("host", "db")]
      (by decide)).2 .mysqlModelStorage (by decide),
   (C10_get_storage model_storage_map _).2.2 "s3" [("host", "db")]
      (by decide) (by decide) "pm" "v" "c"⟩

theorem fold_write_error (ident : ModelIdentity) :
    ∀ (db : List PipelineComponentMeta) (e : Err) (fs : List (String × FileContent)),
      db.foldl (writeRunParametersFile ident) (.error e, fs) = (.error e, fs) := by
  intro db
  induction db with
  | nil => intro e fs; rfl
  | cons row rest ih =>
      intro e fs
      rw [List.foldl_cons]
      exact ih e fs

theorem fold_write_frame (ident : ModelIdentity) :
    ∀ (db : List PipelineComponentMeta)
      (st : Except Err Unit × List (String × FileContent))
      (p : String) (c : FileContent), dget st.2 p = some c →
      dget (db.foldl (writeRunParametersFile ident) st).2 p = some c := by
  intro db
  induction db with
  | nil => intro st p c h; exact h
  | cons row rest ih =>
      intro st p c h
      obtain ⟨r, fs⟩ := st
      rw [List.foldl_cons]
      cases r with
      | error e => exact ih _ p c h
      | ok u =>
          by_cases hq :
            (dget fs (get_run_parameters_path ident row.f_component_name)).isSome
          · have hstep : writeRunParametersFile ident (.ok u, fs) row =
                (.error (.fileExists (get_run_parameters_path ident
                  row.f_component_name)), fs) := by
              simp [writeRunParametersFile, hq]
            rw [hstep]
            exact ih _ p c h
          · have hqn : dget fs (get_run_parameters_path ident row.f_component_name)
                = none := Option.not_isSome_iff_eq_none.mp hq
            have hstep : writeRunParametersFile ident (.ok u, fs) row =
                (.ok (), dinsert fs (get_run_parameters_path ident
                  row.f_component_name) (.jsonMap row.run_parameters)) := by
              simp [writeRunParametersFile, hq]
            rw [hstep]
            refine ih _ p c ?_
            show dget (dinsert fs (get_run_parameters_path ident
              row.f_component_name) (.jsonMap row.run_parameters)) p = some c
            rw [dinsert_append_of_none _ hqn, dget_append, h]
            rfl

theorem fold_write_ok_fresh (ident : ModelIdentity) :
    ∀ (db : List PipelineComponentMeta)
      (fs fs2 : List (String × FileContent)) (u : Unit),
      db.foldl (writeRunParametersFile ident) (.ok (), fs) = (.ok u, fs2) →
      ∀ row ∈ db, dget fs (get_run_parameters_path ident row.f_component_name)
        = none := by
  intro db
  induction db with
  | nil => intro fs fs2 u hfold row hrow; cases hrow
  | cons row0 rest ih =>
      intro fs fs2 u hfold row hrow
      rw [List.foldl_cons] at hfold
      by_cases hq :
        (dget fs (get_run_parameters_path ident row0.f_component_name)).isSome
      · exfalso
        have hstep : writeRunParametersFile ident (.ok (), fs) row0 =
            (.error (.fileExists (get_run_parameters_path ident
              row0.f_component_name)), fs) := by
          simp [writeRunParametersFile, hq]
        rw [hstep, fold_write_error] at hfold
        simp at hfold
      · have hqn : dget fs (get_run_parameters_path ident row0.f_component_name)
            = none := Option.not_isSome_iff_eq_none.mp hq
        have hstep : writeRunParametersFile ident (.ok (), fs) row0 =
            (.ok (), dinsert fs (get_run_parameters_path ident
              row0.f_component_name) (.jsonMap row0.run_parameters)) := by
          simp [writeRunParametersFile, hq]
        rw [hstep] at hfold
        rcases List.mem_cons.mp hrow with rfl | hrow2
        · exact hqn
        · have h2 := ih _ fs2 u hfold row hrow2
          rw [dinsert_append_of_none _ hqn, dget_append] at h2
          cases ho : dget fs (get_run_parameters_path ident row.f_component_name)
            with
          | none => rfl
          | some c => rw [ho] at h2; simp [Option.or] at h2

/-- C8: the two one-way migrations refuse a populated destination and fail
before writing: `save_define_meta_from_file_to_db` raises the already-exists
error whenever rows exist for the identity, inserting nothing; and
`save_define_meta_from_db_to_file` raises the not-found error on an empty
query, never overwrites a pre-existing file (the frame conjunct), and fails
whenever the define-meta snapshot or any matched row's run-parameters file
already exists, because every destination is opened in exclusive-create
mode. -/
theorem C8_migrations_fail_fast (ident : ModelIdentity) :
    (∀ (db : List PipelineComponentMeta) (file_doc : DefineMeta)
       (runp : List (String × List (String × String))), db ≠ [] →
       save_define_meta_from_file_to_db ident db file_doc runp =
         (.error .alreadyExists, db)) ∧
    (∀ fs, save_define_meta_from_db_to_file ident [] fs = (.error .notFound, fs)) ∧
    (∀ (db : List PipelineComponentMeta) (fs : List (String × FileContent))
       (p : String) (c : FileContent), dget fs p = some c →
       dget (save_define_meta_from_db_to_file ident db fs).2 p = some c) ∧
    (∀ (db : List PipelineComponentMeta) (fs : List (String × FileContent)),
       db ≠ [] → (dget fs (define_meta_path ident)).isSome →
       ∃ e, (save_define_meta_from_db_to_file ident db fs).1 = .error e) ∧
    (∀ (db : List PipelineComponentMeta) (fs : List (String × FileContent))
       (row : PipelineComponentMeta), row ∈ db →
       (dget fs (get_run_parameters_path ident row.f_component_name)).isSome →
       ∃ e, (save_define_meta_from_db_to_file ident db fs).1 = .error e) := by
  refine ⟨?_, ?_, ?_, ?_, ?_⟩
  · intro db file_doc runp hne
    have hlen : 0 < db.length := List.length_pos.mpr hne
    simp [save_define_meta_from_file_to_db, hlen]
  · intro fs
    rfl
  · intro db fs p c h
    unfold save_define_meta_from_db_to_file
    by_cases hdb : db.isEmpty
    · simp [hdb, h]
    · rw [if_neg hdb]
      cases hfold : db.foldl (writeRunParametersFile ident) (.ok (), fs) with
      | mk r fs2 =>
          have hfs2 : dget fs2 p = some c := by
            have := fold_write_frame ident db (.ok (), fs) p c h
            rw [hfold] at this
            exact this
          cases r with
          | error e => simpa using hfs2
          | ok u =>
              by_cases hdp : (dget fs2 (define_meta_path ident)).isSome
              · simpa [hdp] using hfs2
              · have hdpn : dget fs2 (define_meta_path ident) = none :=
                  Option.not_isSome_iff_eq_none.mp hdp
                show dget (if (dget fs2 (define_meta_path ident)).isSome = true
                    then (Except.error (Err.fileExists (define_meta_path ident)), fs2)
                    else (Except.ok (), dinsert fs2 (define_meta_path ident)
                      (FileContent.yamlDefineMeta (rearrange_define_meta db)))).2 p
                  = some c
                rw [hdpn]
                show dget (dinsert fs2 (define_meta_path ident)
                  (.yamlDefineMeta (rearrange_define_meta db))) p = some c
                rw [dinsert_append_of_none _ hdpn, dget_append, hfs2]
                rfl
  · intro db fs hne hdp
    unfold save_define_meta_from_db_to_file
    have hdb : db.isEmpty = false := by
      cases db with
      | nil => exact absurd rfl hne
      | cons a l => rfl
    rw [hdb]
    simp only [Bool.false_eq_true, if_false]
    cases hfold : db.foldl (writeRunParametersFile ident) (.ok (), fs) with
    | mk r fs2 =>
        cases r with
        | error e => exact ⟨e, rfl⟩
        | ok u =>
            obtain ⟨c, hc⟩ := Option.isSome_iff_exists.mp hdp
            have hfs2 : dget fs2 (define_meta_path ident) = some c := by
              have := fold_write_frame ident db (.ok (), fs)
                (define_meta_path ident) c hc
              rw [hfold] at this
              exact this
            refine ⟨.fileExists (define_meta_path ident), ?_⟩
            simp [hfs2]
  · intro db fs row hrow hq
    unfold save_define_meta_from_db_to_file
    have hne : db ≠ [] := by
      intro hEq
      rw [hEq] at hrow
      cases hrow
    have hdb : db.isEmpty = false := by
      cases db with
      | nil => exact absurd rfl hne
      | cons a l => rfl
    rw [hdb]
    simp only [Bool.false_eq_true, if_false]
    cases hfold : db.foldl (writeRunParametersFile ident) (.ok (), fs) with
    | mk r fs2 =>
        cases r with
        | error e => exact ⟨e, rfl⟩
        | ok u =>
            exfalso
            have := fold_write_ok_fresh ident db fs fs2 u hfold row hrow
            rw [this] at hq
            cases hq

theorem C8_migrations_fail_fast_witness :
    let ident : ModelIdentity :=
      { role := "guest", party_id := "p", model_id := "m", model_version := "v" }
    let row : PipelineComponentMeta :=
      { f_model_id := "m", f_model_version := "v", f_role := "guest",
        f_party_id := "p", f_component_name := "c",
        f_component_module_name := "mod", f_model_alias := "a",
        f_model_proto_index := [], f_run_parameters := [],
        f_archive_sha256 := "", f_archive_from_ip := "" }
    save_define_meta_from_file_to_db ident [row]
        { component_define := [], model_proto := [] } [] =
      (.error .alreadyExists, [row]) ∧
    (∃ e, (save_define_meta_from_db_to_file ident [row]
      [(define_meta_path ident, .jsonMap [])]).1 = .error e) := by
  refine ⟨(C8_migrations_fail_fast _).1 _ _ _ (by decide), ?_⟩
  exact (C8_migrations_fail_fast _).2.2.2.1 _ _ (by decide) (by decide)

theorem replicate_row_dict_eq (id : Nat) (r : PipelineComponentMeta)
    (modification : List (String × Val)) :
    replicate_row_dict id r modification = dupdate (strippedRow r) modification :=
  rfl

theorem modOk_shape {modification : List (String × Val)}
    (hok : modOk modification = true) {k : String} {v : Val}
    (h : dget modification k = some v) : columnShape k v = true :=
  List.all_eq_true.mp hok ⟨k, v⟩ (dget_mem h)

theorem mod_shape_s {modification : List (String × Val)}
    (hok : modOk modification = true) {k : String}
    (hk : mapColumns.contains k = false) :
    ∀ v, dget modification k = some v → ∃ s, v = .s s := by
  intro v hv
  have hcs : columnShape k v = true := modOk_shape hok hv
  cases v with
  | n n0 => exact absurd hcs (by simp [columnShape])
  | s s0 => exact ⟨s0, rfl⟩
  | m m0 =>
      rw [show columnShape k (.m m0) = mapColumns.contains k from rfl, hk] at hcs
      cases hcs

theorem mod_shape_m {modification : List (String × Val)}
    (hok : modOk modification = true) {k : String}
    (hk : stringColumns.contains k = false) :
    ∀ v, dget modification k = some v → ∃ s, v = .m s := by
  intro v hv
  have hcs : columnShape k v = true := modOk_shape hok hv
  cases v with
  | n n0 => exact absurd hcs (by simp [columnShape])
  | s s0 =>
      rw [show columnShape k (.s s0) = stringColumns.contains k from rfl, hk] at hcs
      cases hcs
  | m m0 => exact ⟨m0, rfl⟩

theorem getS_dupdate (m e : List (String × Val)) (k : String) (d : String)
    (hnd : (dkeys e).Nodup) (hm : dget m k = some (.s d))
    (hshape : ∀ v, dget e k = some v → ∃ s, v = .s s) :
    getS (dupdate m e) k = some (pickS e k d) := by
  unfold getS pickS
  rw [dget_dupdate e m k hnd]
  cases he : dget e k with
  | none => rw [hm]; rfl
  | some v =>
      obtain ⟨s, rfl⟩ := hshape v he
      rfl

theorem getM_dupdate (m e : List (String × Val)) (k : String)
    (d : List (String × String))
    (hnd : (dkeys e).Nodup) (hm : dget m k = some (.m d))
    (hshape : ∀ v, dget e k = some v → ∃ s, v = .m s) :
    getM (dupdate m e) k = some (pickM e k d) := by
  unfold getM pickM
  rw [dget_dupdate e m k hnd]
  cases he : dget e k with
  | none => rw [hm]; rfl
  | some v =>
      obtain ⟨s, rfl⟩ := hshape v he
      rfl

theorem rowFromInsertDict_replicate (id : Nat) (r : PipelineComponentMeta)
    (modification : List (String × Val)) (hok : modOk modification = true)
    (hnd : (dkeys modification).Nodup) :
    rowFromInsertDict (replicate_row_dict id r modification) =
      some (specOverwriteRow modification r) := by
  rw [replicate_row_dict_eq]
  have h01 := getS_dupdate (strippedRow r) modification "model_id"
    r.f_model_id hnd rfl (mod_shape_s hok rfl)
  have h02 := getS_dupdate (strippedRow r) modification "model_version"
    r.f_model_version hnd rfl (mod_shape_s hok rfl)
  have h03 := getS_dupdate (strippedRow r) modification "role"
    r.f_role hnd rfl (mod_shape_s hok rfl)
  have h04 := getS_dupdate (strippedRow r) modification "party_id"
    r.f_party_id hnd rfl (mod_shape_s hok rfl)
  have h05 := getS_dupdate (strippedRow r) modification "component_name"
    r.f_component_name hnd rfl (mod_shape_s hok rfl)
  have h06 := getS_dupdate (strippedRow r) modification "component_module_name"
    r.f_component_module_name hnd rfl (mod_shape_s hok rfl)
  have h07 := getS_dupdate (strippedRow r) modification "model_alias"
    r.f_model_alias hnd rfl (mod_shape_s hok rfl)
  have h08 := getM_dupdate (strippedRow r) modification "model_proto_index"
    r.f_model_proto_index hnd rfl (mod_shape_m hok rfl)
  have h09 := getM_dupdate (strippedRow r) modification "run_parameters"
    r.f_run_parameters hnd rfl (mod_shape_m hok rfl)
  have h10 := getS_dupdate (strippedRow r) modification "archive_sha256"
    r.f_archive_sha256 hnd rfl (mod_shape_s hok rfl)
  have h11 := getS_dupdate (strippedRow r) modification "archive_from_ip"
    r.f_archive_from_ip hnd rfl (mod_shape_s hok rfl)
  simp [rowFromInsertDict, h01, h02, h03, h04, h05, h06, h07, h08, h09, h10, h11,
    specOverwriteRow]

theorem mapM_eq_map {α β : Type} (f : α → Option β) (g : α → β) :
    ∀ l : List α, (∀ x ∈ l, f x = some (g x)) → l.mapM f = some (l.map g) := by
  intro l
  induction l with
  | nil => intro _; rfl
  | cons x rest ih =>
      intro hall
      rw [List.mapM_cons, hall x (List.mem_cons_self _ _),
        ih (fun y hy => hall y (List.mem_cons_of_mem _ hy))]
      rfl

theorem enum_filter_snd {α β : Type} (p : α → Bool) (g : α → β) :
    ∀ (db : List α) (n : Nat),
      ((List.enumFrom n db).filter (fun ir => p ir.2)).map (fun ir => g ir.2) =
        (db.filter p).map g := by
  intro db
  induction db with
  | nil => intro n; rfl
  | cons x rest ih =>
      intro n
      by_cases hp : p x
      · simp only [List.enumFrom, List.filter, hp]
        simp only [List.map_cons, ih (n + 1)]
      · simp only [List.enumFrom, List.filter, hp]
        exact ih (n + 1)

theorem mapM_rowdict (modification : List (String × Val))
    (hok : modOk modification = true) (hnd : (dkeys modification).Nodup) :
    ∀ (q : List (Nat × PipelineComponentMeta)),
      (q.map (fun ir => replicate_row_dict ir.1 ir.2 modification)).mapM
          rowFromInsertDict
        = some (q.map (fun ir => specOverwriteRow modification ir.2)) := by
  intro q
  induction q with
  | nil => rfl
  | cons x rest ih =>
      simp only [List.map_cons, List.mapM_cons,
        rowFromInsertDict_replicate x.1 x.2 modification hok hnd, ih]
      rfl

/-- C9: `replicate_define_meta` fails with the not-found error when no row
matches the extra filter; otherwise it inserts one new row per matched row,
each new row identical to its source row except for the dropped row id and
the fields overwritten by the modification map (`specOverwriteRow`, stated
from the spec's words), and every source row is left unmodified (the
original table is an unchanged prefix of the result). -/
theorem C9_replicate_define_meta (db : List PipelineComponentMeta)
    (extraFilter : PipelineComponentMeta → Bool)
    (modification : List (String × Val))
    (hok : modOk modification = true) (hnd : (dkeys modification).Nodup) :
    (db.filter extraFilter = [] →
       replicate_define_meta db extraFilter modification =
         (.error .notFound, db)) ∧
    (db.filter extraFilter ≠ [] →
       replicate_define_meta db extraFilter modification =
         (.ok (), db ++ (db.filter extraFilter).map
            (specOverwriteRow modification)) ∧
       (replicate_define_meta db extraFilter modification).2.take db.length
         = db) := by
  have hmap : ((List.enumFrom 0 db).filter (fun ir => extraFilter ir.2)).map
      (fun ir => ir.2) = db.filter extraFilter := by
    rw [enum_filter_snd extraFilter (fun a => a) db 0]
    simp
  have hmap2 : ((List.enumFrom 0 db).filter (fun ir => extraFilter ir.2)).map
      (fun ir => specOverwriteRow modification ir.2)
        = (db.filter extraFilter).map (specOverwriteRow modification) :=
    enum_filter_snd extraFilter (specOverwriteRow modification) db 0
  constructor
  · intro hfe
    have hq : (List.enumFrom 0 db).filter (fun ir => extraFilter ir.2) = [] := by
      have h2 := hmap
      rw [hfe] at h2
      exact List.map_eq_nil_iff.mp h2
    unfold replicate_define_meta
    rw [show db.enum = List.enumFrom 0 db from rfl, hq]
    rfl
  · intro hfe
    have hqne : (List.enumFrom 0 db).filter (fun ir => extraFilter ir.2) ≠ [] := by
      intro h
      apply hfe
      rw [← hmap, h]
      rfl
    have hqb : (((List.enumFrom 0 db).filter
        (fun ir => extraFilter ir.2)).isEmpty) = false := by
      cases hq2 : (List.enumFrom 0 db).filter (fun ir => extraFilter ir.2) with
      | nil => exact absurd hq2 hqne
      | cons a l => rfl
    have hrep : replicate_define_meta db extraFilter modification =
        (.ok (), db ++ (db.filter extraFilter).map
          (specOverwriteRow modification)) := by
      have hstep : replicate_define_meta db extraFilter modification =
          (if (((List.enumFrom 0 db).filter
               (fun ir => extraFilter ir.2)).isEmpty) = true
           then (Except.error Err.notFound, db)
           else
             match (((List.enumFrom 0 db).filter (fun ir => extraFilter ir.2)).map
                 (fun ir => replicate_row_dict ir.1 ir.2 modification)).mapM
                 rowFromInsertDict with
             | none => (Except.error Err.insertError, db)
             | some newRows => (Except.ok (), db ++ newRows)) := rfl
      rw [hstep, hqb]
      simp only [Bool.false_eq_true, if_false]
      rw [mapM_rowdict modification hok hnd, hmap2]
    refine ⟨hrep, ?_⟩
    rw [hrep]
    exact List.take_left _ _

theorem C9_replicate_define_meta_witness :
    replicate_define_meta
        [{ f_model_id := "m", f_model_version := "v", f_role := "guest",
           f_party_id := "P1", f_component_name := "c",
           f_component_module_name := "mod", f_model_alias := "a",
           f_model_proto_index := [("f1", "b1")], f_run_parameters := [],
           f_archive_sha256 := "h", f_archive_from_ip := "ip" }]
        (fun _ => true) [("party_id", .s "P2")] =
      (.ok (),
       [{ f_model_id := "m", f_model_version := "v", f_role := "guest",
          f_party_id := "P1", f_component_name := "c",
          f_component_module_name := "mod", f_model_alias := "a",
          f_model_proto_index := [("f1", "b1")], f_run_parameters := [],
          f_archive_sha256 := "h", f_archive_from_ip := "ip" },
        { f_model_id := "m", f_model_version := "v", f_role := "guest",
          f_party_id := "P2", f_component_name := "c",
          f_component_module_name := "mod", f_model_alias := "a",
          f_model_proto_index := [("f1", "b1")], f_run_parameters := [],
          f_archive_sha256 := "h", f_archive_from_ip := "ip" }]) :=
  ((C9_replicate_define_meta _ _ _ (by decide) (by decide)).2 (by decide)).1

theorem dirContains_cons {d : String} {ds p : RelPath}
    (h : dirContains (d :: ds) p = true) :
    ∃ ps, p = d :: ps ∧ dirContains ds ps = true := by
  cases p with
  | nil => cases h
  | cons p0 ps =>
      unfold dirContains at h
      simp only [Bool.and_eq_true] at h
      obtain ⟨h1, h2⟩ := h
      exact ⟨ps, by rw [eq_of_beq h1], h2⟩

theorem extractall_nil (ar : Archive) (hnd : (dkeys ar).Nodup) :
    extractall [] ar = ar := by
  unfold extractall
  have h := foldl_dinsert_eq_append ar [] (fun p _ => rfl) hnd
  simpa using h

theorem dkeys_filter_nodup {α β : Type} (l : List (α × β)) (q : α × β → Bool)
    (hnd : (dkeys l).Nodup) : (dkeys (l.filter q)).Nodup := by
  have hsub : List.Sublist (dkeys (l.filter q)) (dkeys l) :=
    List.Sublist.map Prod.fst (List.filter_sublist l)
  exact hnd.sublist hsub

/-- Successful unpack: the archive is present in the temp store and the
supplied hash is the archive's digest, so extraction into the destination
happens. -/
theorem unpack_component_ok (sha256 : Archive → String) (fs : FileTree)
    (temp : List (String × Archive)) (pmid mv cname : String) (ar : Archive)
    (htemp : dget temp (get_archive_path pmid mv cname) = some ar) :
    unpack_component sha256 fs temp pmid mv cname (some (sha256 ar)) =
      (.ok (), extractall fs ar, temp) := by
  simp [unpack_component, htemp]

/-- C6: `pack_component` archives exactly the files of the component's
`variables/data` and `checkpoint` sub-trees, entry paths relative to the
model root, and returns the archive path together with the digest of the
archive's bytes; `unpack_component` on that archive with that hash into an
empty destination succeeds and reproduces byte-identical files at identical
relative paths (and nothing else): pack then unpack is the identity on the
component's file tree. -/
theorem C6_pack_unpack_roundtrip (sha256 : Archive → String) (fs : FileTree)
    (temp : List (String × Archive)) (pmid mv cname : String)
    (hnd : (dkeys fs).Nodup) :
    ∃ ar : Archive,
      dget (pack_component sha256 fs temp pmid mv cname).2
          (get_archive_path pmid mv cname) = some ar ∧
      (pack_component sha256 fs temp pmid mv cname).1.2 = sha256 ar ∧
      (∀ p b, ((p, b) ∈ ar ↔ ((p, b) ∈ fs ∧
         (dirContains ["variables", "data", cname] p = true ∨
          dirContains ["checkpoint", cname] p = true)))) ∧
      unpack_component sha256 [] (pack_component sha256 fs temp pmid mv cname).2
          pmid mv cname (some (pack_component sha256 fs temp pmid mv cname).1.2)
        = (.ok (), ar, (pack_component sha256 fs temp pmid mv cname).2) ∧
      (∀ p, dget ar p =
        if (dirContains ["variables", "data", cname] p
            || dirContains ["checkpoint", cname] p)
        then dget fs p else none) := by
  refine ⟨walk_component fs ["variables", "data", cname]
    ++ walk_component fs ["checkpoint", cname], ?_, ?_, ?_, ?_, ?_⟩
  · exact dget_dinsert_self _ _ _
  · rfl
  · intro p b
    unfold walk_component
    simp only [List.mem_append, List.mem_filter]
    tauto
  · have hget : dget (pack_component sha256 fs temp pmid mv cname).2
        (get_archive_path pmid mv cname) =
          some (walk_component fs ["variables", "data", cname]
            ++ walk_component fs ["checkpoint", cname]) :=
      dget_dinsert_self _ _ _
    have hndar : (dkeys (walk_component fs ["variables", "data", cname]
        ++ walk_component fs ["checkpoint", cname])).Nodup := by
      have hn1 : (dkeys (walk_component fs ["variables", "data", cname])).Nodup :=
        dkeys_filter_nodup fs _ hnd
      have hn2 : (dkeys (walk_component fs ["checkpoint", cname])).Nodup :=
        dkeys_filter_nodup fs _ hnd
      have hdisj : ∀ a ∈ dkeys (walk_component fs ["variables", "data", cname]),
          a ∉ dkeys (walk_component fs ["checkpoint", cname]) := by
        intro a ha hb
        rcases List.mem_map.mp ha with ⟨e1, he1, rfl⟩
        rcases List.mem_filter.mp he1 with ⟨_, hd1⟩
        rcases List.mem_map.mp hb with ⟨e2, he2, hfst⟩
        rcases List.mem_filter.mp he2 with ⟨_, hd2⟩
        rcases dirContains_cons hd1 with ⟨ps1, hp1, _⟩
        rcases dirContains_cons hd2 with ⟨ps2, hp2, _⟩
        have hEq : ("variables" : String) :: ps1 = "checkpoint" :: ps2 := by
          rw [← hp1, ← hfst]
          exact hp2
        have hhead : ("variables" : String) = "checkpoint" := by
          injection hEq
        exact absurd hhead (by decide)
      have hdk : dkeys (walk_component fs ["variables", "data", cname]
          ++ walk_component fs ["checkpoint", cname])
          = dkeys (walk_component fs ["variables", "data", cname])
            ++ dkeys (walk_component fs ["checkpoint", cname]) := by
        simp [dkeys]
      rw [hdk]
      exact List.Nodup.append hn1 hn2 (List.disjoint_left.mpr hdisj)
    have hok := unpack_component_ok sha256 []
      (pack_component sha256 fs temp pmid mv cname).2 pmid mv cname
      (walk_component fs ["variables", "data", cname]
        ++ walk_component fs ["checkpoint", cname]) hget
    rw [extractall_nil _ hndar] at hok
    exact hok
  · intro p
    show dget (fs.filter (fun e => dirContains ["variables", "data", cname] e.1)
      ++ fs.filter (fun e => dirContains ["checkpoint", cname] e.1)) p = _
    rw [dget_append, dget_filter, dget_filter]
    by_cases h1 : dirContains ["variables", "data", cname] p
    · cases hfs : dget fs p <;> simp [h1, hfs, Option.or]
    · by_cases h2 : dirContains ["checkpoint", cname] p
      · cases hfs : dget fs p <;> simp [h1, h2, hfs, Option.or]
      · simp [h1, h2, Option.or]

theorem C6_pack_unpack_roundtrip_witness :
    ∃ ar : Archive,
      dget (pack_component (fun a => toString a.length)
          [(["variables", "data", "c", "a", "m1"], [1]),
           (["checkpoint", "c", "cp1"], [2]),
           (["variables", "data", "other", "x"], [9])] [] "pm" "v" "c").2
          (get_archive_path "pm" "v" "c") = some ar ∧
      (pack_component (fun a => toString a.length)
          [(["variables", "data", "c", "a", "m1"], [1]),
           (["checkpoint", "c", "cp1"], [2]),
           (["variables", "data", "other", "x"], [9])] [] "pm" "v" "c").1.2
        = toString ar.length ∧
      (∀ p b, ((p, b) ∈ ar ↔
        ((p, b) ∈ [(["variables", "data", "c", "a", "m1"], ([1] : List Nat)),
           (["checkpoint", "c", "cp1"], [2]),
           (["variables", "data", "other", "x"], [9])] ∧
         (dirContains ["variables", "data", "c"] p = true ∨
          dirContains ["checkpoint", "c"] p = true)))) ∧
      unpack_component (fun a => toString a.length) []
          (pack_component (fun a => toString a.length)
            [(["variables", "data", "c", "a", "m1"], [1]),
             (["checkpoint", "c", "cp1"], [2]),
             (["variables", "data", "other", "x"], [9])] [] "pm" "v" "c").2
          "pm" "v" "c"
          (some (pack_component (fun a => toString a.length)
            [(["variables", "data", "c", "a", "m1"], [1]),
             (["checkpoint", "c", "cp1"], [2]),
             (["variables", "data", "other", "x"], [9])] [] "pm" "v" "c").1.2)
        = (.ok (), ar,
           (pack_component (fun a => toString a.length)
             [(["variables", "data", "c", "a", "m1"], [1]),
              (["checkpoint", "c", "cp1"], [2]),
              (["variables", "data", "other", "x"], [9])] [] "pm" "v" "c").2) ∧
      (∀ p, dget ar p =
        if (dirContains ["variables", "data", "c"] p
            || dirContains ["checkpoint", "c"] p)
        then dget [(["variables", "data", "c", "a", "m1"], ([1] : List Nat)),
           (["checkpoint", "c", "cp1"], [2]),
           (["variables", "data", "other", "x"], [9])] p else none) :=
  C6_pack_unpack_roundtrip (fun a => toString a.length)
    [(["variables", "data", "c", "a", "m1"], [1]),
     (["checkpoint", "c", "cp1"], [2]),
     (["variables", "data", "other", "x"], [9])] [] "pm" "v" "c" (by decide)

theorem dinsert_last {α β : Type} [DecidableEq α] {xs : List (α × β)} {k : α}
    (w w2 : β) (h : dget xs k = none) :
    dinsert (xs ++ [(k, w)]) k w2 = xs ++ [(k, w2)] := by
  induction xs with
  | nil => simp [dinsert]
  | cons kv rest ih =>
      obtain ⟨k2, v2⟩ := kv
      by_cases h2 : k2 = k
      · subst h2; simp [dget] at h
      · simp [dget, h2] at h
        simp [dinsert, h2, ih h]

theorem rowsFold_ok (ident : ModelIdentity) (doc : DefineMeta)
    (runp : List (String × List (String × String))) :
    ∀ (cds : List (String × String)),
      (∀ cd ∈ cds, (dget doc.model_proto cd.1).isSome) →
      rowsFold ident doc runp cds = .ok (rowsListFor ident doc runp cds) := by
  intro cds
  induction cds with
  | nil => intro _; rfl
  | cons cd rest ih =>
      intro hall
      obtain ⟨as, has⟩ := Option.isSome_iff_exists.mp
        (hall cd (List.mem_cons_self _ _))
      have hrest := ih (fun y hy => hall y (List.mem_cons_of_mem _ hy))
      show (match dget doc.model_proto cd.1 with
        | none => Except.error (Err.keyError cd.1)
        | some aliases =>
            match rowsFold ident doc runp rest with
            | .error e => Except.error e
            | .ok rest2 =>
                Except.ok (aliases.map (importRow ident runp cd) ++ rest2))
        = Except.ok (rowsListFor ident doc runp (cd :: rest))
      rw [has, hrest]
      show Except.ok (as.map (importRow ident runp cd)
          ++ rowsListFor ident doc runp rest)
        = Except.ok (((dget doc.model_proto cd.1).getD []).map
            (importRow ident runp cd) ++ rowsListFor ident doc runp rest)
      rw [has]
      rfl

theorem rearrange_block_rest (ident : ModelIdentity)
    (runp : List (String × List (String × String))) :
    ∀ (as : List (String × ProtoIndex)) (cd : String × String)
      (CD : List (String × String))
      (X : List (String × List (String × ProtoIndex)))
      (I : List (String × ProtoIndex)),
      dget X cd.1 = none → dget CD cd.1 = some cd.2 →
      (as.map (importRow ident runp cd)).foldl rearrangeStep
          { component_define := CD, model_proto := X ++ [(cd.1, I)] } =
        { component_define := CD,
          model_proto := X ++ [(cd.1,
            as.foldl (fun acc al => dinsert acc al.1 al.2) I)] } := by
  intro as
  induction as with
  | nil => intro cd CD X I hX hCD; rfl
  | cons al rest ih =>
      intro cd CD X I hX hCD
      rw [List.map_cons, List.foldl_cons]
      have hdg : dget (X ++ [(cd.1, I)]) cd.1 = some I := by
        rw [dget_append, hX]
        simp [dget]
      have hstep : rearrangeStep
          { component_define := CD, model_proto := X ++ [(cd.1, I)] }
          (importRow ident runp cd al) =
          { component_define := CD,
            model_proto := X ++ [(cd.1, dinsert I al.1 al.2)] } := by
        show ({ component_define := dinsert CD cd.1 cd.2,
                model_proto := dinsert (X ++ [(cd.1, I)]) cd.1
                  (dinsert ((dget (X ++ [(cd.1, I)]) cd.1).getD []) al.1 al.2) }
              : DefineMeta)
            = { component_define := CD,
                model_proto := X ++ [(cd.1, dinsert I al.1 al.2)] }
        rw [dinsert_of_dget_eq hCD, hdg]
        show ({ component_define := CD,
                model_proto := dinsert (X ++ [(cd.1, I)]) cd.1
                  (dinsert I al.1 al.2) } : DefineMeta) = _
        rw [dinsert_last I _ hX]
      rw [hstep]
      have h2 := ih cd CD X (dinsert I al.1 al.2) hX hCD
      rw [h2]
      rfl

theorem rearrange_block (ident : ModelIdentity)
    (runp : List (String × List (String × String)))
    (cd : String × String) (as : List (String × ProtoIndex)) (hne : as ≠ [])
    (CD : List (String × String))
    (MP : List (String × List (String × ProtoIndex)))
    (hCD : dget CD cd.1 = none) (hMP : dget MP cd.1 = none) :
    (as.map (importRow ident runp cd)).foldl rearrangeStep
        { component_define := CD, model_proto := MP } =
      { component_define := CD ++ [cd],
        model_proto := MP ++ [(cd.1,
          as.foldl (fun acc al => dinsert acc al.1 al.2) [])] } := by
  cases as with
  | nil => exact absurd rfl hne
  | cons al0 rest =>
      rw [List.map_cons, List.foldl_cons]
      have hstep : rearrangeStep { component_define := CD, model_proto := MP }
          (importRow ident runp cd al0) =
          { component_define := CD ++ [(cd.1, cd.2)],
            model_proto := MP ++ [(cd.1, [(al0.1, al0.2)])] } := by
        show ({ component_define := dinsert CD cd.1 cd.2,
                model_proto := dinsert MP cd.1
                  (dinsert ((dget MP cd.1).getD []) al0.1 al0.2) } : DefineMeta)
            = { component_define := CD ++ [(cd.1, cd.2)],
                model_proto := MP ++ [(cd.1, [(al0.1, al0.2)])] }
        rw [hMP, dinsert_append_of_none cd.2 hCD]
        show ({ component_define := CD ++ [(cd.1, cd.2)],
                model_proto := dinsert MP cd.1 [(al0.1, al0.2)] } : DefineMeta) = _
        rw [dinsert_append_of_none _ hMP]
      rw [hstep]
      have hCD2 : dget (CD ++ [(cd.1, cd.2)]) cd.1 = some cd.2 := by
        rw [dget_append, hCD]
        simp [dget]
      have h2 := rearrange_block_rest ident runp rest cd (CD ++ [(cd.1, cd.2)])
        MP [(al0.1, al0.2)] hMP hCD2
      rw [h2]
      rfl

theorem rearrange_rows_aux (ident : ModelIdentity) (doc : DefineMeta)
    (runp : List (String × List (String × String))) :
    ∀ (cds : List (String × String)) (CD : List (String × String))
      (MP : List (String × List (String × ProtoIndex))),
      (dkeys cds).Nodup →
      (∀ cd ∈ cds, ∃ as, dget doc.model_proto cd.1 = some as ∧ as ≠ []) →
      (∀ cd ∈ cds, dget CD cd.1 = none ∧ dget MP cd.1 = none) →
      (rowsListFor ident doc runp cds).foldl rearrangeStep
          { component_define := CD, model_proto := MP } =
        { component_define := CD ++ cds,
          model_proto := MP ++ cds.map (fun cd =>
            (cd.1, ((dget doc.model_proto cd.1).getD []).foldl
              (fun acc al => dinsert acc al.1 al.2) [])) } := by
  intro cds
  induction cds with
  | nil => intro CD MP _ _ _; simp [rowsListFor]
  | cons cd rest ih =>
      intro CD MP hnd hmp hfresh
      rw [show rowsListFor ident doc runp (cd :: rest)
          = ((dget doc.model_proto cd.1).getD []).map (importRow ident runp cd)
            ++ rowsListFor ident doc runp rest from rfl]
      rw [List.foldl_append]
      obtain ⟨as, has, hasne⟩ := hmp cd (List.mem_cons_self _ _)
      obtain ⟨hCDf, hMPf⟩ := hfresh cd (List.mem_cons_self _ _)
      rw [has, Option.getD_some]
      rw [rearrange_block ident runp cd as hasne CD MP hCDf hMPf]
      have hnd1 : (cd.1 :: dkeys rest).Nodup := hnd
      have hknotin : cd.1 ∉ dkeys rest := (List.nodup_cons.mp hnd1).1
      have hnd2 : (dkeys rest).Nodup := (List.nodup_cons.mp hnd1).2
      have hfresh2 : ∀ cd2 ∈ rest,
          dget (CD ++ [cd]) cd2.1 = none ∧
          dget (MP ++ [(cd.1, as.foldl (fun acc al => dinsert acc al.1 al.2) [])])
            cd2.1 = none := by
        intro cd2 hcd2
        obtain ⟨hc1, hc2⟩ := hfresh cd2 (List.mem_cons_of_mem _ hcd2)
        have hne12 : cd.1 ≠ cd2.1 := by
          intro hEq
          exact hknotin (hEq ▸ (List.mem_map_of_mem Prod.fst hcd2))
        constructor
        · rw [dget_append, hc1]
          simp [dget, hne12]
        · rw [dget_append, hc2]
          simp [dget, hne12]
      rw [ih (CD ++ [cd])
        (MP ++ [(cd.1, as.foldl (fun acc al => dinsert acc al.1 al.2) [])])
        hnd2 (fun y hy => hmp y (List.mem_cons_of_mem _ hy)) hfresh2]
      simp [List.map_cons, has, List.append_assoc]

theorem dget_map_keyfun {β : Type} (g : String → β) :
    ∀ (cds : List (String × String)) (c : String),
      dget (cds.map (fun cd => (cd.1, g cd.1))) c =
        (match dget cds c with
         | some _ => some (g c)
         | none => none) := by
  intro cds
  induction cds with
  | nil => intro c; rfl
  | cons cd rest ih =>
      intro c
      rw [List.map_cons]
      by_cases h : cd.1 = c
      · show (if cd.1 = c then some (g cd.1) else
            dget (rest.map (fun cd => (cd.1, g cd.1))) c) = _
        rw [if_pos h, h]
        show _ = (match (if cd.1 = c then some cd.2 else dget rest c) with
          | some _ => some (g c) | none => none)
        rw [if_pos h]
      · show (if cd.1 = c then some (g cd.1) else
            dget (rest.map (fun cd => (cd.1, g cd.1))) c) = _
        rw [if_neg h, ih c]
        show _ = (match (if cd.1 = c then some cd.2 else dget rest c) with
          | some _ => some (g c) | none => none)
        rw [if_neg h]

/-- C7 (amended): `get_define_meta` returns the database-derived view exactly
when at least one metadata row exists for the identity, and otherwise the
parsed on-disk snapshot; and the two representations round-trip for every
well-formed document — distinct component keys, every `component_define`
component present in `model_proto` with a non-empty distinct-keyed alias map,
and no `model_proto` component outside `component_define`: importing such a
document into an empty database and reading the database-derived view yields
a document equal, as key-value maps, to the original.  (Unrestricted, the
round-trip fails: see the counterexample with an empty alias map.) -/
theorem C7_get_define_meta_roundtrip (ident : ModelIdentity) :
    (∀ (db : List PipelineComponentMeta) (file_doc : DefineMeta),
       (db ≠ [] → get_define_meta db file_doc = rearrange_define_meta db) ∧
       (db = [] → get_define_meta db file_doc = file_doc)) ∧
    (∀ (doc : DefineMeta) (runp : List (String × List (String × String))),
       (dkeys doc.component_define).Nodup →
       (∀ cd ∈ doc.component_define, ∃ as,
          dget doc.model_proto cd.1 = some as ∧ as ≠ [] ∧ (dkeys as).Nodup) →
       (∀ p ∈ doc.model_proto, (dget doc.component_define p.1).isSome) →
       (save_define_meta_from_file_to_db ident [] doc runp).1 = .ok () ∧
       (∀ c, dget (rearrange_define_meta
           (save_define_meta_from_file_to_db ident [] doc runp).2).component_define c
         = dget doc.component_define c) ∧
       (∀ c, dget (rearrange_define_meta
           (save_define_meta_from_file_to_db ident [] doc runp).2).model_proto c
         = dget doc.model_proto c)) := by
  constructor
  · intro db file_doc
    constructor
    · intro hne
      have hdb : db.isEmpty = false := by
        cases db with
        | nil => exact absurd rfl hne
        | cons a l => rfl
      simp [get_define_meta, hdb]
    · intro hEq
      subst hEq
      rfl
  · intro doc runp hnd hmp h3
    have hiss : ∀ cd ∈ doc.component_define, (dget doc.model_proto cd.1).isSome := by
      intro cd hcd
      obtain ⟨as, has, _, _⟩ := hmp cd hcd
      simp [has]
    have hrows : rowsOfDefineMeta ident doc runp =
        .ok (rowsListFor ident doc runp doc.component_define) :=
      rowsFold_ok ident doc runp doc.component_define hiss
    have hsave : save_define_meta_from_file_to_db ident [] doc runp =
        (.ok (), rowsListFor ident doc runp doc.component_define) := by
      unfold save_define_meta_from_file_to_db
      rw [hrows]
      rfl
    have haux := rearrange_rows_aux ident doc runp doc.component_define [] []
      hnd
      (fun cd hcd => by
        obtain ⟨as, h1, h2, _⟩ := hmp cd hcd
        exact ⟨as, h1, h2⟩)
      (fun cd _ => ⟨rfl, rfl⟩)
    have hrearr : rearrange_define_meta
        (rowsListFor ident doc runp doc.component_define) =
        { component_define := doc.component_define,
          model_proto := doc.component_define.map (fun cd =>
            (cd.1, ((dget doc.model_proto cd.1).getD []).foldl
              (fun acc al => dinsert acc al.1 al.2) [])) } := by
      have h := haux
      simpa [rearrange_define_meta] using h
    refine ⟨by rw [hsave], ?_, ?_⟩
    · intro c
      rw [hsave]
      show dget (rearrange_define_meta
        (rowsListFor ident doc runp doc.component_define)).component_define c
        = dget doc.component_define c
      rw [hrearr]
    · intro c
      rw [hsave]
      show dget (rearrange_define_meta
        (rowsListFor ident doc runp doc.component_define)).model_proto c
        = dget doc.model_proto c
      rw [hrearr]
      show dget (doc.component_define.map (fun cd =>
        (cd.1, ((dget doc.model_proto cd.1).getD []).foldl
          (fun acc al => dinsert acc al.1 al.2) []))) c = dget doc.model_proto c
      rw [dget_map_keyfun (fun k => ((dget doc.model_proto k).getD []).foldl
        (fun acc al => dinsert acc al.1 al.2) []) doc.component_define c]
      cases hc : dget doc.component_define c with
      | none =>
          cases hr : dget doc.model_proto c with
          | none => rfl
          | some v =>
              have hmem := dget_mem hr
              have := h3 (c, v) hmem
              rw [hc] at this
              cases this
      | some m =>
          have hmem := dget_mem hc
          obtain ⟨as, has, hane, handup⟩ := hmp (c, m) hmem
          have hfold : as.foldl (fun acc al => dinsert acc al.1 al.2) [] = as := by
            have h := foldl_dinsert_eq_append as [] (fun p _ => rfl) handup
            simpa using h
          rw [has]
          show some (((some as).getD []).foldl
            (fun acc al => dinsert acc al.1 al.2) []) = some as
          rw [Option.getD_some, hfold]

/-- C7 counterexample: the claim's unrestricted round-trip is false.  The
document mapping component `c` to module `m` with an empty alias map imports
into an empty database as zero rows (the insert loops iterate the aliases),
so the database-derived view of the imported state is the empty document,
which differs from the original at component `c`. -/
theorem C7_get_define_meta_roundtrip_counterexample :
    (save_define_meta_from_file_to_db
        { role := "guest", party_id := "p", model_id := "m", model_version := "v" }
        [] { component_define := [("c", "m")], model_proto := [("c", [])] } []).1
      = .ok () ∧
    rearrange_define_meta
        (save_define_meta_from_file_to_db
          { role := "guest", party_id := "p", model_id := "m", model_version := "v" }
          [] { component_define := [("c", "m")], model_proto := [("c", [])] } []).2
      ≠ { component_define := [("c", "m")], model_proto := [("c", [])] } ∧
    dget (rearrange_define_meta
        (save_define_meta_from_file_to_db
          { role := "guest", party_id := "p", model_id := "m", model_version := "v" }
          [] { component_define := [("c", "m")], model_proto := [("c", [])] }
          []).2).model_proto "c"
      = none ∧
    dget ({ component_define := [("c", "m")], model_proto := [("c", [])] }
        : DefineMeta).model_proto "c" = some [] := by
  refine ⟨rfl, ?_, rfl, rfl⟩
  intro h
  have h2 := congrArg (fun d => dget d.model_proto "c") h
  simp [dget] at h2

theorem C7_get_define_meta_roundtrip_witness :
    (save_define_meta_from_file_to_db
        { role := "guest", party_id := "p", model_id := "m", model_version := "v" }
        [] { component_define := [("c", "m")],
             model_proto := [("c", [("a", [("f1", "b1")])])] } []).1 = .ok () ∧
    (∀ c2, dget (rearrange_define_meta
        (save_define_meta_from_file_to_db
          { role := "guest", party_id := "p", model_id := "m", model_version := "v" }
          [] { component_define := [("c", "m")],
               model_proto := [("c", [("a", [("f1", "b1")])])] }
          []).2).component_define c2
      = dget [("c", "m")] c2) ∧
    (∀ c2, dget (rearrange_define_meta
        (save_define_meta_from_file_to_db
          { role := "guest", party_id := "p", model_id := "m", model_version := "v" }
          [] { component_define := [("c", "m")],
               model_proto := [("c", [("a", [("f1", "b1")])])] }
          []).2).model_proto c2
      = dget [("c", [("a", [("f1", "b1")])])] c2) :=
  (C7_get_define_meta_roundtrip
      { role := "guest", party_id := "p", model_id := "m", model_version := "v" }).2
    { component_define := [("c", "m")],
      model_proto := [("c", [("a", [("f1", "b1")])])] } []
    (by decide)
    (by
      intro cd hcd
      have hcd2 : cd = ("c", "m") := List.mem_singleton.mp hcd
      subst hcd2
      exact ⟨[("a", [("f1", "b1")])], by decide, by decide, by decide⟩)
    (by decide)

end FateFlow
